import Mathlib

/-!
Shallow embedding of `packages/backend-test-utils/src/next/wiring/TestBackend.ts`.

The embedding translates the wiring logic of the test backend harness:
feature normalization (`getRegistrations` with type/version validation),
extension-point ownership resolution (`createExtensionPointTestModules`),
explicit-service / default-factory merging in `startTestBackend`, the
`discovery` and root HTTP router factories, the `server` accessor of the
returned `TestBackend`, and the process-wide `afterAll` teardown hook.

JavaScript `Map` and `Set` are embedded as insertion-ordered association
lists and lists of keys, matching the iteration-order semantics the code
relies on.  Thrown exceptions are embedded as `Except String`.
-/

namespace TestBackendSpec

/-- The single-quote character, used by the error messages of the source
(`'${id}'` style interpolation). -/
def sq : String := String.singleton (Char.ofNat 39)

/-- A normalized registration record as returned by
`InternalBackendFeature.getRegistrations()`: its `type` tag
(`"plugin"` or `"module"`), the `pluginId`, and the ids of the refs in
`Object.values(registration.init.deps)`, in key order. -/
structure Registration where
  rtype : String
  pluginId : String
  initDeps : List String
deriving Repr, DecidableEq

/-- A `BackendFeature` as inspected by `createExtensionPointTestModules`:
its `$$type` tag, its `version` tag, and the registrations that
`getRegistrations()` yields once the feature passes validation. -/
structure BackendFeature where
  featureType : String
  version : String
  registrations : List Registration
deriving Repr, DecidableEq

/-- Lines 109-120 of TestBackend.ts: validate one feature's `$$type` and
`version` tags and return its registrations, throwing on a mismatch. -/
def getRegistrationsChecked (f : BackendFeature) : Except String (List Registration) :=
  if f.featureType ≠ "@backstage/BackendFeature" then
    Except.error ("Failed to add feature, invalid type " ++ sq ++ f.featureType ++ sq)
  else if f.version ≠ "v1" then
    Except.error ("Failed to add feature, invalid version " ++ sq ++ f.version ++ sq)
  else
    Except.ok f.registrations

/-- The `features.flatMap` pass of `createExtensionPointTestModules`
(lines 108-121): validates each feature in order and concatenates the
registrations; the first invalid feature aborts with its error. -/
def normalizeFeatures : List BackendFeature → Except String (List Registration)
  | [] => Except.ok []
  | f :: rest =>
    match getRegistrationsChecked f with
    | Except.error e => Except.error e
    | Except.ok rs =>
      match normalizeFeatures rest with
      | Except.error e => Except.error e
      | Except.ok rest2 => Except.ok (rs ++ rest2)

/-- Key set of a JavaScript `Map` built from a tuple list: unique keys in
first-insertion order (`new Map(tuples).keys()`). -/
def mapKeysAux : List String → List (String × α) → List String
  | acc, [] => acc
  | acc, t :: rest => mapKeysAux (if t.1 ∈ acc then acc else acc ++ [t.1]) rest

/-- The set `new Set(new Map(extensionPointTuples.map(ep ⇒ [ep[0].id, ep])).keys())`:
the initial pending set of extension-point ids. -/
def mapKeys (ts : List (String × α)) : List String := mapKeysAux [] ts

/-- The lookup `extensionPointMap.get(id)`: a JavaScript `Map` lookup, where the last
inserted value for a key wins. -/
def mapLookup (ts : List (String × α)) (k : String) : Option (String × α) :=
  ts.reverse.find? (fun t => t.1 == k)

/-- The `extensionPointsByPlugin` update (lines 135-143): append `ids` to the
entry for `pid`, creating the entry at the end when absent, preserving
`Map` insertion order. -/
def pushPoints : List (String × List String) → String → List String → List (String × List String)
  | [], pid, ids => [(pid, ids)]
  | e :: rest, pid, ids =>
    if e.1 = pid then (e.1, e.2 ++ ids) :: rest
    else e :: pushPoints rest pid ids

/-- The single scan over registrations (lines 129-146): for each
module-kind registration, the deps whose ids are still pending are
recorded under the registration's `pluginId` and removed from the
pending set.  Returns the final pending set and owner map. -/
def scanRegistrations :
    List Registration → List String → List (String × List String) →
      List String × List (String × List String)
  | [], pending, bp => (pending, bp)
  | r :: rest, pending, bp =>
    if r.rtype = "module" then
      let testDep := r.initDeps.filter (fun i => decide (i ∈ pending))
      if testDep = [] then
        scanRegistrations rest pending bp
      else
        scanRegistrations rest (pending.filter (fun i => decide (i ∉ testDep)))
          (pushPoints bp r.pluginId testDep)
    else
      scanRegistrations rest pending bp

/-- The first module-kind registration in scan order whose init deps
mention the extension-point id `i` — the registration whose `pluginId`
the scan records as the owner of `i`. -/
def findOwner (regs : List Registration) (i : String) : Option Registration :=
  regs.find? (fun r => decide (r.rtype = "module" ∧ i ∈ r.initDeps))

/-- The error thrown on lines 152-155 when ownership of some extension
points cannot be inferred, naming each unresolved id. -/
def unresolvedMessage (ids : List String) : String :=
  "Unable to determine the plugin ID of extension point(s) " ++
    String.intercalate ", " (ids.map (fun i => sq ++ i ++ sq)) ++
    ". Tested extension points must be depended on by one or more tested modules."

/-- A module synthesized by `createBackendModule` on lines 160-175: its
`pluginId`, `moduleId`, the extension-point tuples its register callback
registers, and the dependency map of its `registerInit` call (always
empty; the init function is a no-op). -/
structure TestModule (α : Type) where
  pluginId : String
  moduleId : String
  extensionPoints : List (String × α)
  initDeps : List String
deriving Repr, DecidableEq

/-- Synthesis of one module from an `extensionPointsByPlugin` entry
(lines 160-175): register `extensionPointMap.get(id)!` for each resolved
id, then `registerInit` with empty deps. -/
def synthModule [Inhabited α] (ts : List (String × α)) (e : String × List String) :
    TestModule α :=
  { pluginId := e.1
  , moduleId := "testExtensionPointRegistration"
  , extensionPoints := e.2.map (fun i => (mapLookup ts i).getD default)
  , initDeps := [] }

/-- The function `createExtensionPointTestModules` (lines 97-178): `undefined` tuples
short-circuit to `[]`; otherwise features are validated and flattened,
the pending set is scanned once, leftover pending ids abort with
`unresolvedMessage`, and one module per owning plugin is synthesized. -/
def createExtensionPointTestModules [Inhabited α] (features : List BackendFeature)
    (tuples : Option (List (String × α))) : Except String (List (TestModule α)) :=
  match tuples with
  | none => Except.ok []
  | some ts =>
    match normalizeFeatures features with
    | Except.error e => Except.error e
    | Except.ok regs =>
      let scanned := scanRegistrations regs (mapKeys ts) []
      if scanned.1 = [] then
        Except.ok (scanned.2.map (synthModule ts))
      else
        Except.error (unresolvedMessage scanned.1)

/-- A `ServiceRef`: a service id and a scope tag. -/
structure ServiceRefE where
  id : String
  scope : String
deriving Repr, DecidableEq

/-- A service factory as far as `startTestBackend` inspects it: its
`service.id`, the scope of the created factory, and, for factories
wrapped around a literal `[ref, impl]` pair, the implementation. -/
structure ServiceFactoryE (α : Type) where
  serviceId : String
  scope : String
  impl : Option α
deriving Repr, DecidableEq

/-- One entry of the `services` option: a ready factory, a
factory-producing function, or a `[ref, impl]` pair. -/
inductive ServiceDefE (α : Type) where
  | factory : ServiceFactoryE α → ServiceDefE α
  | factoryFn : (Unit → ServiceFactoryE α) → ServiceDefE α
  | refImpl : ServiceRefE → α → ServiceDefE α

/-- The mapping `services.map(serviceDef ⇒ ...)` (lines 250-272): a `[ref, impl]`
pair is wrapped as a trivial factory in the ref's scope, a function is
invoked, a factory is passed through. -/
def mapServiceDef : ServiceDefE α → ServiceFactoryE α
  | ServiceDefE.factory f => f
  | ServiceDefE.factoryFn g => g ()
  | ServiceDefE.refImpl ref impl =>
    if ref.scope = "plugin" then
      { serviceId := ref.id, scope := "plugin", impl := some impl }
    else
      { serviceId := ref.id, scope := "root", impl := some impl }

/-- The default-appending loop (lines 274-278): each default factory is
pushed onto the list unless some already-present factory has the same
`service.id`. -/
def addDefaults : List (ServiceFactoryE α) → List (ServiceFactoryE α) → List (ServiceFactoryE α)
  | fs, [] => fs
  | fs, d :: ds =>
    if fs.any (fun f => f.serviceId == d.serviceId) then addDefaults fs ds
    else addDefaults (fs ++ [d]) ds

/-- The factory list `startTestBackend` assembles from the `services`
option and `defaultServiceFactories` before adding the synthetic router
and discovery factories. -/
def startTestBackendFactories (services : List (ServiceDefE α))
    (defaults : List (ServiceFactoryE α)) : List (ServiceFactoryE α) :=
  addDefaults (services.map mapServiceDef) defaults

/-- The `services` array passed to `createSpecializedBackend`
(line 282): the merged factories followed by `rootHttpRouterFactory` and
`discoveryFactory`. -/
def servicesPassedToBackend (services : List (ServiceDefE α))
    (defaults : List (ServiceFactoryE α)) (rootRouterF discoveryF : ServiceFactoryE α) :
    List (ServiceFactoryE α) :=
  startTestBackendFactories services defaults ++ [rootRouterF, discoveryF]

/-- The HTTP server created by the root HTTP router factory, identified
by the port its listener actually bound to (`server.port()`). -/
structure ExtendedHttpServerE where
  boundPort : Nat
deriving Repr, DecidableEq

/-- The call `server.port()`. -/
def serverPort (s : ExtendedHttpServerE) : Nat := s.boundPort

/-- The state captured by the closed-over `server` variable after
`rootHttpRouterFactory` has created and started a server bound to
`boundPort` (lines 217-225). -/
def rootHttpRouterFactoryRun (boundPort : Nat) : ExtendedHttpServerE :=
  { boundPort := boundPort }

/-- The discovery instance built by `HostDiscovery.fromConfig` on
lines 241-246: its backend base URL and listen port. -/
structure HostDiscoveryE where
  baseUrl : String
  listenPort : Nat
deriving Repr, DecidableEq

/-- The factory function of `discoveryFactory` (lines 236-247): throws when
the closed-over `server` variable is still unset, otherwise derives the
base URL from `server.port()`. -/
def discoveryFactoryRun (server : Option ExtendedHttpServerE) : Except String HostDiscoveryE :=
  match server with
  | none => Except.error "Test server not started yet"
  | some s =>
    let port := serverPort s
    Except.ok { baseUrl := "http://localhost:" ++ toString port, listenPort := port }

/-- The `server` getter of the returned `TestBackend` (lines 297-304):
throws when the closed-over `server` variable was never set. -/
def serverAccessor (server : Option ExtendedHttpServerE) : Except String ExtendedHttpServerE :=
  match server with
  | none => Except.error "TestBackend server is not available"
  | some s => Except.ok s

/-- A backend on the `backendInstancesToCleanUp` list, described by what
its `stop()` call does. -/
structure BackendE where
  stopResult : Except String Unit
deriving Repr

/-- The per-backend body of the `afterAll` hook (lines 319-325):
`try await backend.stop() catch console.error(...)` — a failing stop is
converted into a log line, never rethrown. -/
def stopBackendLogged (b : BackendE) : Option String :=
  match b.stopResult with
  | Except.ok _ => none
  | Except.error e => some ("Failed to stop backend after tests, " ++ e)

/-- The teardown map over `backendInstancesToCleanUp` (lines 318-325):
every backend is attempted independently, yielding one outcome (a log
line or nothing) per backend. -/
def runTeardownPass : List BackendE → List (Option String)
  | [] => []
  | b :: rest => stopBackendLogged b :: runTeardownPass rest

/-- The whole `afterAll` hook (lines 317-328): the outcomes of stopping
every backend, and the cleanup list after `length = 0` resets it. -/
def afterAllTeardown (bs : List BackendE) : List (Option String) × List BackendE :=
  (runTeardownPass bs, [])

/-! ## Helper lemmas -/

theorem runTeardownPass_append (l1 l2 : List BackendE) :
    runTeardownPass (l1 ++ l2) = runTeardownPass l1 ++ runTeardownPass l2 := by
  induction l1 with
  | nil => rfl
  | cons b rest ih => simp [runTeardownPass, ih]

theorem runTeardownPass_length (l : List BackendE) :
    (runTeardownPass l).length = l.length := by
  induction l with
  | nil => rfl
  | cons b rest ih => simp [runTeardownPass, ih]

theorem addDefaults_mem {α : Type} (fs ds : List (ServiceFactoryE α)) :
    ∀ f ∈ addDefaults fs ds,
      f ∈ fs ∨ (f ∈ ds ∧ ∀ e ∈ fs, e.serviceId ≠ f.serviceId) := by
  induction ds generalizing fs with
  | nil =>
    intro f hf
    simp only [addDefaults] at hf
    exact Or.inl hf
  | cons d ds ih =>
    intro f hf
    simp only [addDefaults] at hf
    by_cases hc : fs.any (fun g => g.serviceId == d.serviceId) = true
    · rw [if_pos hc] at hf
      rcases ih fs f hf with h1 | ⟨h2, h3⟩
      · exact Or.inl h1
      · exact Or.inr ⟨List.mem_cons_of_mem _ h2, h3⟩
    · rw [if_neg hc] at hf
      simp only [List.any_eq_true, beq_iff_eq, not_exists, not_and] at hc
      rcases ih (fs ++ [d]) f hf with h1 | ⟨h2, h3⟩
      · rcases List.mem_append.mp h1 with h1a | h1b
        · exact Or.inl h1a
        · have hfd : f = d := by simpa using h1b
          subst hfd
          exact Or.inr ⟨List.mem_cons_self _ _, fun e he => hc e he⟩
      · exact Or.inr
          ⟨List.mem_cons_of_mem _ h2, fun e he => h3 e (List.mem_append_left _ he)⟩

theorem addDefaults_prefix {α : Type} (fs ds : List (ServiceFactoryE α)) :
    ∃ kept, addDefaults fs ds = fs ++ kept := by
  induction ds generalizing fs with
  | nil => exact ⟨[], by simp [addDefaults]⟩
  | cons d ds ih =>
    by_cases hc : fs.any (fun g => g.serviceId == d.serviceId) = true
    · obtain ⟨kept, hk⟩ := ih fs
      exact ⟨kept, by simp only [addDefaults, if_pos hc]; exact hk⟩
    · obtain ⟨kept, hk⟩ := ih (fs ++ [d])
      refine ⟨[d] ++ kept, ?_⟩
      simp only [addDefaults, if_neg hc]
      rw [hk, List.append_assoc]

theorem mapKeysAux_mem {α : Type} (ts : List (String × α)) :
    ∀ (acc : List String) (i : String),
      i ∈ mapKeysAux acc ts ↔ i ∈ acc ∨ i ∈ ts.map Prod.fst := by
  induction ts with
  | nil => intro acc i; simp [mapKeysAux]
  | cons t rest ih =>
    intro acc i
    simp only [mapKeysAux, List.map_cons, List.mem_cons]
    by_cases hm : t.1 ∈ acc
    · rw [if_pos hm, ih]
      constructor
      · rintro (h | h)
        · exact Or.inl h
        · exact Or.inr (Or.inr h)
      · rintro (h | h | h)
        · exact Or.inl h
        · exact Or.inl (h ▸ hm)
        · exact Or.inr h
    · rw [if_neg hm, ih]
      simp only [List.mem_append, List.mem_singleton]
      tauto

theorem mapKeys_mem {α : Type} (ts : List (String × α)) (i : String) :
    i ∈ mapKeys ts ↔ i ∈ ts.map Prod.fst := by
  rw [mapKeys, mapKeysAux_mem]
  simp

theorem mapKeysAux_nodup {α : Type} (ts : List (String × α)) :
    ∀ acc : List String, acc.Nodup → (mapKeysAux acc ts).Nodup := by
  induction ts with
  | nil => intro acc h; exact h
  | cons t rest ih =>
    intro acc h
    simp only [mapKeysAux]
    by_cases hm : t.1 ∈ acc
    · rw [if_pos hm]; exact ih acc h
    · rw [if_neg hm]
      refine ih _ ?_
      simp [List.nodup_append, h, hm]

theorem mapKeys_nodup {α : Type} (ts : List (String × α)) : (mapKeys ts).Nodup :=
  mapKeysAux_nodup ts [] List.nodup_nil

theorem mapLookup_eq_some {α : Type} {ts : List (String × α)} {k : String} {t : String × α}
    (h : mapLookup ts k = some t) : t ∈ ts ∧ t.1 = k := by
  have h1 := List.find?_some h
  have h2 := List.mem_of_find?_eq_some h
  exact ⟨List.mem_reverse.mp h2, by simpa using h1⟩

theorem mapLookup_isSome {α : Type} (ts : List (String × α)) (k : String)
    (h : k ∈ ts.map Prod.fst) : ∃ t, mapLookup ts k = some t := by
  rw [List.mem_map] at h
  obtain ⟨t, ht, hk⟩ := h
  have hex : ∃ x ∈ ts.reverse, (x.1 == k) = true :=
    ⟨t, List.mem_reverse.mpr ht, by simp [hk]⟩
  have := List.find?_isSome.mpr hex
  exact Option.isSome_iff_exists.mp this

theorem mapLookup_getD {α : Type} [Inhabited α] (ts : List (String × α)) (k : String)
    (h : k ∈ ts.map Prod.fst) :
    (mapLookup ts k).getD default ∈ ts ∧ ((mapLookup ts k).getD default).1 = k := by
  obtain ⟨t, ht⟩ := mapLookup_isSome ts k h
  rw [ht]
  simp only [Option.getD_some]
  have h2 := mapLookup_eq_some ht
  exact ⟨h2.1, h2.2⟩

theorem pushPoints_keys (bp : List (String × List String)) (pid : String) (ids : List String) :
    (pushPoints bp pid ids).map Prod.fst =
      if pid ∈ bp.map Prod.fst then bp.map Prod.fst else bp.map Prod.fst ++ [pid] := by
  induction bp with
  | nil => simp [pushPoints]
  | cons e rest ih =>
    obtain ⟨q, qs⟩ := e
    simp only [pushPoints, List.map_cons, List.mem_cons]
    by_cases he : q = pid
    · rw [if_pos he]
      simp [he]
    · rw [if_neg he]
      simp only [List.map_cons, ih]
      by_cases hm : pid ∈ rest.map Prod.fst
      · rw [if_pos hm, if_pos (Or.inr hm)]
      · rw [if_neg hm, if_neg ?_]
        · simp
        · rintro (h | h)
          · exact he h.symm
          · exact hm h

theorem pushPoints_mem_of_mem {bp : List (String × List String)} {pid : String}
    {ids : List String} {p : String} {pts : List String} (h : (p, pts) ∈ bp) :
    ∃ pts2, (p, pts2) ∈ pushPoints bp pid ids ∧ ∀ x ∈ pts, x ∈ pts2 := by
  induction bp with
  | nil => cases h
  | cons e rest ih =>
    obtain ⟨q, qs⟩ := e
    simp only [pushPoints]
    by_cases he : q = pid
    · rw [if_pos he]
      rcases List.mem_cons.mp h with h1 | h2
      · obtain ⟨hq, hqs⟩ := Prod.mk.injEq .. ▸ h1
        refine ⟨qs ++ ids, ?_, ?_⟩
        · rw [hq]; exact List.mem_cons_self _ _
        · intro x hx
          exact List.mem_append_left _ (hqs ▸ hx)
      · exact ⟨pts, List.mem_cons_of_mem _ h2, fun x hx => hx⟩
    · rw [if_neg he]
      rcases List.mem_cons.mp h with h1 | h2
      · exact ⟨pts, h1 ▸ List.mem_cons_self _ _, fun x hx => hx⟩
      · obtain ⟨pts2, hm, hsub⟩ := ih h2
        exact ⟨pts2, List.mem_cons_of_mem _ hm, hsub⟩

theorem pushPoints_mem_inv {bp : List (String × List String)} {pid : String}
    {ids : List String} {p : String} {pts : List String} {x : String}
    (h : (p, pts) ∈ pushPoints bp pid ids) (hx : x ∈ pts) :
    (∃ pts2, (p, pts2) ∈ bp ∧ x ∈ pts2) ∨ (p = pid ∧ x ∈ ids) := by
  induction bp with
  | nil =>
    simp only [pushPoints, List.mem_singleton, Prod.mk.injEq] at h
    exact Or.inr ⟨h.1, h.2 ▸ hx⟩
  | cons e rest ih =>
    obtain ⟨q, qs⟩ := e
    simp only [pushPoints] at h
    by_cases he : q = pid
    · rw [if_pos he] at h
      rcases List.mem_cons.mp h with h1 | h2
      · obtain ⟨hq, hqs⟩ := Prod.mk.injEq .. ▸ h1
        rcases List.mem_append.mp (hqs ▸ hx) with hxa | hxb
        · exact Or.inl ⟨qs, hq ▸ List.mem_cons_self _ _, hxa⟩
        · exact Or.inr ⟨hq.trans he, hxb⟩
      · exact Or.inl ⟨pts, List.mem_cons_of_mem _ h2, hx⟩
    · rw [if_neg he] at h
      rcases List.mem_cons.mp h with h1 | h2
      · exact Or.inl ⟨pts, h1 ▸ List.mem_cons_self _ _, hx⟩
      · rcases ih h2 with ⟨pts2, hm, hx2⟩ | hr
        · exact Or.inl ⟨pts2, List.mem_cons_of_mem _ hm, hx2⟩
        · exact Or.inr hr

theorem pushPoints_self (bp : List (String × List String)) (pid : String)
    (ids : List String) :
    ∃ pts, (pid, pts) ∈ pushPoints bp pid ids ∧ ∀ x ∈ ids, x ∈ pts := by
  induction bp with
  | nil => exact ⟨ids, List.mem_singleton.mpr rfl, fun x hx => hx⟩
  | cons e rest ih =>
    obtain ⟨q, qs⟩ := e
    simp only [pushPoints]
    by_cases he : q = pid
    · rw [if_pos he]
      subst he
      exact ⟨qs ++ ids, List.mem_cons_self _ _, fun x hx => List.mem_append_right _ hx⟩
    · rw [if_neg he]
      obtain ⟨pts, hm, hsub⟩ := ih
      exact ⟨pts, List.mem_cons_of_mem _ hm, hsub⟩

theorem scan_pending_mem (regs : List Registration) :
    ∀ (pending : List String) (bp : List (String × List String)) (i : String),
      i ∈ (scanRegistrations regs pending bp).1 ↔
        i ∈ pending ∧ ∀ r ∈ regs, r.rtype = "module" → i ∉ r.initDeps := by
  induction regs with
  | nil => intro pending bp i; simp [scanRegistrations]
  | cons r rest ih =>
    intro pending bp i
    simp only [scanRegistrations]
    by_cases hm : r.rtype = "module"
    · rw [if_pos hm]
      set td := r.initDeps.filter (fun j => decide (j ∈ pending)) with htd
      have htd_mem : ∀ j, j ∈ td ↔ j ∈ r.initDeps ∧ j ∈ pending := by
        intro j; rw [htd]; simp [List.mem_filter]
      by_cases hE : td = []
      · rw [if_pos hE, ih]
        have hno : ∀ j, j ∈ pending → j ∉ r.initDeps := by
          intro j hj hjd
          have : j ∈ td := (htd_mem j).mpr ⟨hjd, hj⟩
          rw [hE] at this
          cases this
        constructor
        · rintro ⟨h1, h2⟩
          refine ⟨h1, ?_⟩
          intro r2 hr2 hm2
          rcases List.mem_cons.mp hr2 with rfl | hr3
          · exact hno i h1
          · exact h2 r2 hr3 hm2
        · rintro ⟨h1, h2⟩
          exact ⟨h1, fun r2 hr2 hm2 => h2 r2 (List.mem_cons_of_mem _ hr2) hm2⟩
      · rw [if_neg hE, ih]
        constructor
        · rintro ⟨h1, h2⟩
          have h1a : i ∈ pending ∧ i ∉ td := by
            have := List.mem_filter.mp h1
            exact ⟨this.1, by simpa using this.2⟩
          refine ⟨h1a.1, ?_⟩
          intro r2 hr2 hm2
          rcases List.mem_cons.mp hr2 with rfl | hr3
          · intro hid
            exact h1a.2 ((htd_mem i).mpr ⟨hid, h1a.1⟩)
          · exact h2 r2 hr3 hm2
        · rintro ⟨h1, h2⟩
          have hni : i ∉ r.initDeps := h2 r (List.mem_cons_self _ _) hm
          refine ⟨?_, fun r2 hr2 hm2 => h2 r2 (List.mem_cons_of_mem _ hr2) hm2⟩
          rw [List.mem_filter]
          refine ⟨h1, ?_⟩
          simp only [decide_eq_true_eq]
          intro hmem
          exact hni ((htd_mem i).mp hmem).1
    · rw [if_neg hm, ih]
      constructor
      · rintro ⟨h1, h2⟩
        refine ⟨h1, ?_⟩
        intro r2 hr2 hm2
        rcases List.mem_cons.mp hr2 with rfl | hr3
        · exact absurd hm2 hm
        · exact h2 r2 hr3 hm2
      · rintro ⟨h1, h2⟩
        exact ⟨h1, fun r2 hr2 hm2 => h2 r2 (List.mem_cons_of_mem _ hr2) hm2⟩

theorem scan_frozen (regs : List Registration) :
    ∀ (pending : List String) (bp : List (String × List String)) (x : String),
      x ∉ pending →
      ∀ p pts, (p, pts) ∈ (scanRegistrations regs pending bp).2 → x ∈ pts →
        ∃ pts2, (p, pts2) ∈ bp ∧ x ∈ pts2 := by
  induction regs with
  | nil =>
    intro pending bp x _ p pts h hxp
    exact ⟨pts, h, hxp⟩
  | cons r rest ih =>
    intro pending bp x hx p pts h hxp
    simp only [scanRegistrations] at h
    by_cases hm : r.rtype = "module"
    · rw [if_pos hm] at h
      set td := r.initDeps.filter (fun j => decide (j ∈ pending)) with htd
      by_cases hE : td = []
      · rw [if_pos hE] at h
        exact ih pending bp x hx p pts h hxp
      · rw [if_neg hE] at h
        have hx2 : x ∉ pending.filter (fun j => decide (j ∉ td)) := by
          intro hc
          exact hx (List.mem_filter.mp hc).1
        obtain ⟨pts2, hm2, hxp2⟩ := ih _ _ x hx2 p pts h hxp
        rcases pushPoints_mem_inv hm2 hxp2 with ⟨pts3, hm3, hxp3⟩ | ⟨_, hxtd⟩
        · exact ⟨pts3, hm3, hxp3⟩
        · have : x ∈ pending := by
            have h2 := List.mem_filter.mp (htd ▸ hxtd)
            simpa using h2.2
          exact absurd this hx
    · rw [if_neg hm] at h
      exact ih pending bp x hx p pts h hxp

theorem scan_keeps (regs : List Registration) :
    ∀ (pending : List String) (bp : List (String × List String)) (p : String)
      (pts : List String) (x : String), (p, pts) ∈ bp → x ∈ pts →
      ∃ pts2, (p, pts2) ∈ (scanRegistrations regs pending bp).2 ∧ x ∈ pts2 := by
  induction regs with
  | nil =>
    intro pending bp p pts x h hx
    exact ⟨pts, h, hx⟩
  | cons r rest ih =>
    intro pending bp p pts x h hx
    simp only [scanRegistrations]
    by_cases hm : r.rtype = "module"
    · rw [if_pos hm]
      set td := r.initDeps.filter (fun j => decide (j ∈ pending)) with htd
      by_cases hE : td = []
      · rw [if_pos hE]
        exact ih pending bp p pts x h hx
      · rw [if_neg hE]
        obtain ⟨pts2, hm2, hsub⟩ := @pushPoints_mem_of_mem bp r.pluginId td p pts h
        exact ih _ _ p pts2 x hm2 (hsub x hx)
    · rw [if_neg hm]
      exact ih pending bp p pts x h hx

theorem scan_points_sub (regs : List Registration) :
    ∀ (pending : List String) (bp : List (String × List String)) (p : String)
      (pts : List String) (x : String),
      (p, pts) ∈ (scanRegistrations regs pending bp).2 → x ∈ pts →
      (∃ pts2, (p, pts2) ∈ bp ∧ x ∈ pts2) ∨ x ∈ pending := by
  induction regs with
  | nil =>
    intro pending bp p pts x h hx
    exact Or.inl ⟨pts, h, hx⟩
  | cons r rest ih =>
    intro pending bp p pts x h hx
    simp only [scanRegistrations] at h
    by_cases hm : r.rtype = "module"
    · rw [if_pos hm] at h
      set td := r.initDeps.filter (fun j => decide (j ∈ pending)) with htd
      by_cases hE : td = []
      · rw [if_pos hE] at h
        exact ih pending bp p pts x h hx
      · rw [if_neg hE] at h
        rcases ih _ _ p pts x h hx with ⟨pts2, hm2, hx2⟩ | hpend
        · rcases pushPoints_mem_inv hm2 hx2 with ⟨pts3, hm3, hx3⟩ | ⟨_, hxtd⟩
          · exact Or.inl ⟨pts3, hm3, hx3⟩
          · refine Or.inr ?_
            have h2 := List.mem_filter.mp (htd ▸ hxtd)
            simpa using h2.2
        · exact Or.inr (List.mem_filter.mp hpend).1
    · rw [if_neg hm] at h
      exact ih pending bp p pts x h hx

theorem scan_keys_nodup (regs : List Registration) :
    ∀ (pending : List String) (bp : List (String × List String)),
      (bp.map Prod.fst).Nodup →
      ((scanRegistrations regs pending bp).2.map Prod.fst).Nodup := by
  induction regs with
  | nil => intro pending bp h; exact h
  | cons r rest ih =>
    intro pending bp h
    simp only [scanRegistrations]
    by_cases hm : r.rtype = "module"
    · rw [if_pos hm]
      set td := r.initDeps.filter (fun j => decide (j ∈ pending)) with htd
      by_cases hE : td = []
      · rw [if_pos hE]
        exact ih pending bp h
      · rw [if_neg hE]
        refine ih _ _ ?_
        rw [pushPoints_keys]
        by_cases hmem : r.pluginId ∈ bp.map Prod.fst
        · rw [if_pos hmem]; exact h
        · rw [if_neg hmem]
          simp [List.nodup_append, h, hmem]
    · rw [if_neg hm]
      exact ih pending bp h

theorem scan_owner (regs : List Registration) :
    ∀ (pending : List String) (bp : List (String × List String)) (i : String)
      (r : Registration),
      i ∈ pending →
      (∀ p pts, (p, pts) ∈ bp → i ∉ pts) →
      findOwner regs i = some r →
      i ∉ (scanRegistrations regs pending bp).1 ∧
      (∃ pts, (r.pluginId, pts) ∈ (scanRegistrations regs pending bp).2 ∧ i ∈ pts) ∧
      (∀ p pts, (p, pts) ∈ (scanRegistrations regs pending bp).2 → i ∈ pts →
        p = r.pluginId) := by
  induction regs with
  | nil =>
    intro pending bp i r _ _ hf
    simp [findOwner] at hf
  | cons r0 rest ih =>
    intro pending bp i r hip hbp hf
    by_cases hd : r0.rtype = "module" ∧ i ∈ r0.initDeps
    · have hr : r = r0 := by
        have : findOwner (r0 :: rest) i = some r0 := by
          unfold findOwner
          rw [List.find?_cons_of_pos]
          simpa using hd
        rw [this] at hf
        exact (Option.some.injEq .. ▸ hf).symm
      subst hr
      simp only [scanRegistrations]
      rw [if_pos hd.1]
      set td := r.initDeps.filter (fun j => decide (j ∈ pending)) with htd
      have hitd : i ∈ td := by
        rw [htd, List.mem_filter]
        exact ⟨hd.2, by simpa using hip⟩
      have hE : td ≠ [] := List.ne_nil_of_mem hitd
      rw [if_neg hE]
      have hip2 : i ∉ pending.filter (fun j => decide (j ∉ td)) := by
        intro hc
        have h2 := List.mem_filter.mp hc
        exact (by simpa using h2.2 : i ∉ td) hitd
      refine ⟨?_, ?_, ?_⟩
      · intro hc
        exact hip2 ((scan_pending_mem rest _ _ i).mp hc).1
      · obtain ⟨pts, hmem, hsub⟩ := pushPoints_self bp r.pluginId td
        exact scan_keeps rest _ _ r.pluginId pts i hmem (hsub i hitd)
      · intro p pts hmem hi
        obtain ⟨pts2, hm2, hi2⟩ := scan_frozen rest _ _ i hip2 p pts hmem hi
        rcases pushPoints_mem_inv hm2 hi2 with ⟨pts3, hm3, hi3⟩ | ⟨hp, _⟩
        · exact absurd hi3 (hbp p pts3 hm3)
        · exact hp
    · have hf2 : findOwner rest i = some r := by
        have : findOwner (r0 :: rest) i = findOwner rest i := by
          unfold findOwner
          rw [List.find?_cons_of_neg]
          simpa using hd
        rw [this] at hf
        exact hf
      simp only [scanRegistrations]
      by_cases hm : r0.rtype = "module"
      · rw [if_pos hm]
        have hni : i ∉ r0.initDeps := fun hc => hd ⟨hm, hc⟩
        set td := r0.initDeps.filter (fun j => decide (j ∈ pending)) with htd
        have hitd : i ∉ td := by
          rw [htd, List.mem_filter]
          rintro ⟨hc, _⟩
          exact hni hc
        by_cases hE : td = []
        · rw [if_pos hE]
          exact ih pending bp i r hip hbp hf2
        · rw [if_neg hE]
          have hip2 : i ∈ pending.filter (fun j => decide (j ∉ td)) := by
            rw [List.mem_filter]
            exact ⟨hip, by simpa using hitd⟩
          have hbp2 : ∀ p pts, (p, pts) ∈ pushPoints bp r0.pluginId td → i ∉ pts := by
            intro p pts hmem hi
            rcases pushPoints_mem_inv hmem hi with ⟨pts2, hm2, hi2⟩ | ⟨_, hitd2⟩
            · exact hbp p pts2 hm2 hi2
            · exact hitd hitd2
          exact ih _ _ i r hip2 hbp2 hf2
      · rw [if_neg hm]
        exact ih pending bp i r hip hbp hf2

/-! ## Claims -/

/-- C1: the ownership resolution keeps a pending set with one entry per
supplied extension-point id, scans every module-kind registration's
init deps once (an id leaves the pending set exactly when some
module-kind registration depends on it), records the depending
registration's `pluginId` as the owner of each id it removes, and when
ids remain pending after the scan, fails with an error naming every
unresolved id instead of synthesizing modules. -/
theorem c1_ownership_scan {α : Type} [Inhabited α] (features : List BackendFeature)
    (ts : List (String × α)) (regs : List Registration)
    (hregs : normalizeFeatures features = Except.ok regs) :
    ((mapKeys ts).Nodup ∧ ∀ i, i ∈ mapKeys ts ↔ i ∈ ts.map Prod.fst) ∧
    (∀ i, i ∈ (scanRegistrations regs (mapKeys ts) []).1 ↔
        i ∈ mapKeys ts ∧ ∀ r ∈ regs, r.rtype = "module" → i ∉ r.initDeps) ∧
    ((scanRegistrations regs (mapKeys ts) []).1 ≠ [] →
      createExtensionPointTestModules features (some ts) =
        Except.error (unresolvedMessage (scanRegistrations regs (mapKeys ts) []).1)) ∧
    (∀ i r, i ∈ mapKeys ts → findOwner regs i = some r →
      i ∉ (scanRegistrations regs (mapKeys ts) []).1 ∧
      ∃ pts, (r.pluginId, pts) ∈ (scanRegistrations regs (mapKeys ts) []).2 ∧ i ∈ pts) := by
  refine ⟨⟨mapKeys_nodup ts, mapKeys_mem ts⟩, scan_pending_mem regs (mapKeys ts) [], ?_, ?_⟩
  · intro hne
    simp only [createExtensionPointTestModules, hregs]
    rw [if_neg hne]
  · intro i r hi hfind
    have h := scan_owner regs (mapKeys ts) [] i r hi (by intro p pts hc; cases hc) hfind
    exact ⟨h.1, h.2.1⟩

/-- Witness for C1 at a concrete input: one tested module depends on
`e1` only, so the supplied extension point `e3` stays pending and the
resolution fails naming it. -/
theorem c1_ownership_scan_witness :
    createExtensionPointTestModules
        [{ featureType := "@backstage/BackendFeature", version := "v1"
         , registrations := [{ rtype := "module", pluginId := "p1", initDeps := ["e1"] }] }]
        (some [("e1", (10 : Nat)), ("e3", 30)]) =
      Except.error (unresolvedMessage
        (scanRegistrations [{ rtype := "module", pluginId := "p1", initDeps := ["e1"] }]
          (mapKeys [("e1", (10 : Nat)), ("e3", 30)]) []).1) :=
  (c1_ownership_scan
      [{ featureType := "@backstage/BackendFeature", version := "v1"
       , registrations := [{ rtype := "module", pluginId := "p1", initDeps := ["e1"] }] }]
      [("e1", 10), ("e3", 30)]
      [{ rtype := "module", pluginId := "p1", initDeps := ["e1"] }] rfl).2.2.1
    (by decide)

/-- C4: on success, exactly one module is synthesized per distinct
owning plugin discovered by the scan, scoped to that plugin id, with
`moduleId` `testExtensionPointRegistration`, an empty init dependency
map, and a register callback that registers exactly the supplied tuples
of the extension points resolved to that plugin. -/
theorem c4_synthesized_modules {α : Type} [Inhabited α] (features : List BackendFeature)
    (ts : List (String × α)) (regs : List Registration) (mods : List (TestModule α))
    (hregs : normalizeFeatures features = Except.ok regs)
    (h : createExtensionPointTestModules features (some ts) = Except.ok mods) :
    mods.map TestModule.pluginId =
      (scanRegistrations regs (mapKeys ts) []).2.map Prod.fst ∧
    (mods.map TestModule.pluginId).Nodup ∧
    ∀ m ∈ mods, m.moduleId = "testExtensionPointRegistration" ∧ m.initDeps = [] ∧
      (∀ t ∈ m.extensionPoints, t ∈ ts) ∧
      ∃ e ∈ (scanRegistrations regs (mapKeys ts) []).2,
        m.pluginId = e.1 ∧ m.extensionPoints.map Prod.fst = e.2 := by
  simp only [createExtensionPointTestModules, hregs] at h
  by_cases hnil : (scanRegistrations regs (mapKeys ts) []).1 = []
  · rw [if_pos hnil] at h
    have hmods : mods = (scanRegistrations regs (mapKeys ts) []).2.map (synthModule ts) :=
      (Except.ok.injEq .. ▸ h).symm
    have hcov : ∀ e ∈ (scanRegistrations regs (mapKeys ts) []).2, ∀ x ∈ e.2,
        x ∈ mapKeys ts := by
      intro e he x hx
      have he2 : (e.1, e.2) ∈ (scanRegistrations regs (mapKeys ts) []).2 := by
        simpa using he
      rcases scan_points_sub regs (mapKeys ts) [] e.1 e.2 x he2 hx with ⟨pts2, h2, _⟩ | hk
      · cases h2
      · exact hk
    refine ⟨?_, ?_, ?_⟩
    · rw [hmods, List.map_map]
      exact List.map_congr_left fun e _ => rfl
    · have hkeys : mods.map TestModule.pluginId =
          (scanRegistrations regs (mapKeys ts) []).2.map Prod.fst := by
        rw [hmods, List.map_map]
        exact List.map_congr_left fun e _ => rfl
      rw [hkeys]
      exact scan_keys_nodup regs (mapKeys ts) [] (by simp)
    · intro m hm
      rw [hmods] at hm
      obtain ⟨e, he, hme⟩ := List.mem_map.mp hm
      refine ⟨by rw [← hme]; rfl, by rw [← hme]; rfl, ?_, ?_⟩
      · intro t ht
        rw [← hme] at ht
        obtain ⟨x, hx, hxt⟩ := List.mem_map.mp ht
        have hk : x ∈ ts.map Prod.fst :=
          (mapKeys_mem ts x).mp (hcov e he x hx)
        exact hxt ▸ (mapLookup_getD ts x hk).1
      · refine ⟨e, he, by rw [← hme]; rfl, ?_⟩
        rw [← hme]
        simp only [synthModule, List.map_map]
        have : ∀ x ∈ e.2,
            (Prod.fst ∘ fun i => (mapLookup ts i).getD default) x = id x := by
          intro x hx
          have hk : x ∈ ts.map Prod.fst :=
            (mapKeys_mem ts x).mp (hcov e he x hx)
          exact (mapLookup_getD ts x hk).2
        rw [List.map_congr_left this, List.map_id]
  · rw [if_neg hnil] at h
    cases h

/-- Witness for C4 at a concrete input: one module under `p1` depending
on `e1`, one under `p2` depending on `e2`. -/
theorem c4_synthesized_modules_witness :
    (([{ pluginId := "p1", moduleId := "testExtensionPointRegistration"
       , extensionPoints := [("e1", 10)], initDeps := [] },
       { pluginId := "p2", moduleId := "testExtensionPointRegistration"
       , extensionPoints := [("e2", 20)], initDeps := [] }] :
        List (TestModule Nat)).map TestModule.pluginId =
      (scanRegistrations
        [{ rtype := "module", pluginId := "p1", initDeps := ["e1"] },
         { rtype := "module", pluginId := "p2", initDeps := ["e2"] }]
        (mapKeys [("e1", (10 : Nat)), ("e2", 20)]) []).2.map Prod.fst) ∧
    (([{ pluginId := "p1", moduleId := "testExtensionPointRegistration"
       , extensionPoints := [("e1", 10)], initDeps := [] },
       { pluginId := "p2", moduleId := "testExtensionPointRegistration"
       , extensionPoints := [("e2", 20)], initDeps := [] }] :
        List (TestModule Nat)).map TestModule.pluginId).Nodup ∧
    ∀ m ∈ ([{ pluginId := "p1", moduleId := "testExtensionPointRegistration"
            , extensionPoints := [("e1", 10)], initDeps := [] },
            { pluginId := "p2", moduleId := "testExtensionPointRegistration"
            , extensionPoints := [("e2", 20)], initDeps := [] }] :
          List (TestModule Nat)),
      m.moduleId = "testExtensionPointRegistration" ∧ m.initDeps = [] ∧
      (∀ t ∈ m.extensionPoints, t ∈ [("e1", (10 : Nat)), ("e2", 20)]) ∧
      ∃ e ∈ (scanRegistrations
          [{ rtype := "module", pluginId := "p1", initDeps := ["e1"] },
           { rtype := "module", pluginId := "p2", initDeps := ["e2"] }]
          (mapKeys [("e1", (10 : Nat)), ("e2", 20)]) []).2,
        m.pluginId = e.1 ∧ m.extensionPoints.map Prod.fst = e.2 :=
  c4_synthesized_modules
    [{ featureType := "@backstage/BackendFeature", version := "v1"
     , registrations := [{ rtype := "module", pluginId := "p1", initDeps := ["e1"] },
                         { rtype := "module", pluginId := "p2", initDeps := ["e2"] }] }]
    [("e1", 10), ("e2", 20)]
    [{ rtype := "module", pluginId := "p1", initDeps := ["e1"] },
     { rtype := "module", pluginId := "p2", initDeps := ["e2"] }]
    [{ pluginId := "p1", moduleId := "testExtensionPointRegistration"
     , extensionPoints := [("e1", 10)], initDeps := [] },
     { pluginId := "p2", moduleId := "testExtensionPointRegistration"
     , extensionPoints := [("e2", 20)], initDeps := [] }]
    rfl rfl

/-- C9: when several module-kind registrations depend on the same
supplied extension point, the point is attached to the `pluginId` of the
first such registration in scan order (`findOwner`), it is attached to
no other plugin, it is no longer pending, and when every supplied id has
a depending module the resolution succeeds without error. -/
theorem c9_first_module_wins {α : Type} [Inhabited α] (features : List BackendFeature)
    (ts : List (String × α)) (regs : List Registration)
    (hregs : normalizeFeatures features = Except.ok regs)
    (i : String) (r : Registration)
    (hp : i ∈ mapKeys ts)
    (hfind : findOwner regs i = some r) :
    (∃ pts, (r.pluginId, pts) ∈ (scanRegistrations regs (mapKeys ts) []).2 ∧ i ∈ pts) ∧
    (∀ p pts, (p, pts) ∈ (scanRegistrations regs (mapKeys ts) []).2 → i ∈ pts →
      p = r.pluginId) ∧
    i ∉ (scanRegistrations regs (mapKeys ts) []).1 ∧
    ((∀ k, k ∈ mapKeys ts → ∃ r2, r2 ∈ regs ∧ r2.rtype = "module" ∧ k ∈ r2.initDeps) →
      ∃ mods, createExtensionPointTestModules features (some ts) = Except.ok mods) := by
  have h := scan_owner regs (mapKeys ts) [] i r hp (by intro p pts hc; cases hc) hfind
  refine ⟨h.2.1, h.2.2, h.1, ?_⟩
  intro hall
  have hnil : (scanRegistrations regs (mapKeys ts) []).1 = [] := by
    rw [List.eq_nil_iff_forall_not_mem]
    intro x hx
    have hx2 := (scan_pending_mem regs (mapKeys ts) [] x).mp hx
    obtain ⟨r2, hr2, hm2, hd2⟩ := hall x hx2.1
    exact hx2.2 r2 hr2 hm2 hd2
  refine ⟨(scanRegistrations regs (mapKeys ts) []).2.map (synthModule ts), ?_⟩
  simp only [createExtensionPointTestModules, hregs]
  rw [if_pos hnil]

/-- Witness for C9 at a concrete input: two modules under `p1` and `p2`
both depend on `e1`; the first one in scan order wins. -/
theorem c9_first_module_wins_witness :
    (∃ pts, ("p1", pts) ∈ (scanRegistrations
        [{ rtype := "module", pluginId := "p1", initDeps := ["e1"] },
         { rtype := "module", pluginId := "p2", initDeps := ["e1"] }]
        (mapKeys [("e1", (10 : Nat))]) []).2 ∧ "e1" ∈ pts) ∧
    (∀ p pts, (p, pts) ∈ (scanRegistrations
        [{ rtype := "module", pluginId := "p1", initDeps := ["e1"] },
         { rtype := "module", pluginId := "p2", initDeps := ["e1"] }]
        (mapKeys [("e1", (10 : Nat))]) []).2 → "e1" ∈ pts → p = "p1") ∧
    "e1" ∉ (scanRegistrations
        [{ rtype := "module", pluginId := "p1", initDeps := ["e1"] },
         { rtype := "module", pluginId := "p2", initDeps := ["e1"] }]
        (mapKeys [("e1", (10 : Nat))]) []).1 ∧
    ((∀ k, k ∈ mapKeys [("e1", (10 : Nat))] →
        ∃ r2, r2 ∈ ([{ rtype := "module", pluginId := "p1", initDeps := ["e1"] },
                     { rtype := "module", pluginId := "p2", initDeps := ["e1"] }] :
            List Registration) ∧
          r2.rtype = "module" ∧ k ∈ r2.initDeps) →
      ∃ mods, createExtensionPointTestModules
          [{ featureType := "@backstage/BackendFeature", version := "v1"
           , registrations :=
              [{ rtype := "module", pluginId := "p1", initDeps := ["e1"] },
               { rtype := "module", pluginId := "p2", initDeps := ["e1"] }] }]
          (some [("e1", (10 : Nat))]) = Except.ok mods) :=
  c9_first_module_wins
    [{ featureType := "@backstage/BackendFeature", version := "v1"
     , registrations := [{ rtype := "module", pluginId := "p1", initDeps := ["e1"] },
                         { rtype := "module", pluginId := "p2", initDeps := ["e1"] }] }]
    [("e1", 10)]
    [{ rtype := "module", pluginId := "p1", initDeps := ["e1"] },
     { rtype := "module", pluginId := "p2", initDeps := ["e1"] }]
    rfl "e1" { rtype := "module", pluginId := "p1", initDeps := ["e1"] }
    (by decide) rfl

/-- C2: in `startTestBackend`, built-in default service factories are
appended only for service ids not already present among the
caller-supplied service definitions, so for every explicitly supplied
service id the explicit factory, not the default, is the one that ends
up in the factory list passed to `createSpecializedBackend`. -/
theorem c2_explicit_overrides_defaults (services : List (ServiceDefE Nat))
    (defaults : List (ServiceFactoryE Nat)) (s : String)
    (hs : ∃ e ∈ services.map mapServiceDef, e.serviceId = s) :
    (∀ f ∈ startTestBackendFactories services defaults,
        f ∈ services.map mapServiceDef ∨
          (f ∈ defaults ∧ ∀ e ∈ services.map mapServiceDef, e.serviceId ≠ f.serviceId)) ∧
    (∀ f ∈ startTestBackendFactories services defaults,
        f.serviceId = s → f ∈ services.map mapServiceDef) := by
  constructor
  · exact addDefaults_mem (services.map mapServiceDef) defaults
  · intro f hf hid
    rcases addDefaults_mem (services.map mapServiceDef) defaults f hf with h1 | ⟨_, h3⟩
    · exact h1
    · obtain ⟨e, he, hes⟩ := hs
      exact absurd (hes.trans hid.symm) (h3 e he)

/-- Witness for C2 at a concrete input: an explicit factory for id `x`
keeps the default factory for `x` out of the merged list. -/
theorem c2_explicit_overrides_defaults_witness :
    ({ serviceId := "x", scope := "root", impl := some 1 } : ServiceFactoryE Nat) ∈
      List.map mapServiceDef
        [ServiceDefE.factory ({ serviceId := "x", scope := "root", impl := some 1 })] :=
  (c2_explicit_overrides_defaults
      [ServiceDefE.factory ({ serviceId := "x", scope := "root", impl := some 1 })]
      [{ serviceId := "x", scope := "root", impl := some 2 },
       { serviceId := "y", scope := "root", impl := some 3 }]
      "x"
      ⟨{ serviceId := "x", scope := "root", impl := some 1 }, by simp [mapServiceDef], rfl⟩).2
    { serviceId := "x", scope := "root", impl := some 1 }
    (by decide) rfl

/-- C3: the discovery factory throws `Test server not started yet` when
invoked while the closed-over `server` variable is unset, and otherwise
builds a discovery whose base URL contains exactly the port the root
router's listener actually bound to. -/
theorem c3_discovery_port (p : Nat) :
    discoveryFactoryRun none = Except.error "Test server not started yet" ∧
    discoveryFactoryRun (some (rootHttpRouterFactoryRun p)) =
      Except.ok { baseUrl := "http://localhost:" ++ toString p, listenPort := p } ∧
    ∀ s : ExtendedHttpServerE,
      discoveryFactoryRun (some s) =
        Except.ok { baseUrl := "http://localhost:" ++ toString (serverPort s)
                  , listenPort := serverPort s } := by
  refine ⟨rfl, rfl, fun s => rfl⟩

/-- C5: feature normalization rejects a feature whose `$$type` differs
from `@backstage/BackendFeature` or whose `version` differs from `v1`,
naming the offending value in the error; a feature passing both checks
contributes exactly its registrations. -/
theorem c5_feature_validation (f : BackendFeature) (ts : List (String × Nat)) :
    (f.featureType ≠ "@backstage/BackendFeature" →
      createExtensionPointTestModules [f] (some ts) =
        Except.error ("Failed to add feature, invalid type " ++ sq ++ f.featureType ++ sq)) ∧
    (f.featureType = "@backstage/BackendFeature" → f.version ≠ "v1" →
      createExtensionPointTestModules [f] (some ts) =
        Except.error ("Failed to add feature, invalid version " ++ sq ++ f.version ++ sq)) ∧
    (f.featureType = "@backstage/BackendFeature" → f.version = "v1" →
      normalizeFeatures [f] = Except.ok f.registrations) := by
  refine ⟨?_, ?_, ?_⟩
  · intro h
    simp [createExtensionPointTestModules, normalizeFeatures, getRegistrationsChecked, h]
  · intro h1 h2
    simp [createExtensionPointTestModules, normalizeFeatures, getRegistrationsChecked, h1, h2]
  · intro h1 h2
    simp [normalizeFeatures, getRegistrationsChecked, h1, h2]

/-- Witness for C5 at concrete inputs: a wrong type tag, a wrong version
tag, and a valid feature. -/
theorem c5_feature_validation_witness :
    createExtensionPointTestModules
        [{ featureType := "bogus", version := "v1", registrations := [] }]
        (some [("e", (0 : Nat))]) =
      Except.error ("Failed to add feature, invalid type " ++ sq ++ "bogus" ++ sq) ∧
    createExtensionPointTestModules
        [{ featureType := "@backstage/BackendFeature", version := "v2", registrations := [] }]
        (some [("e", (0 : Nat))]) =
      Except.error ("Failed to add feature, invalid version " ++ sq ++ "v2" ++ sq) ∧
    normalizeFeatures
        [{ featureType := "@backstage/BackendFeature", version := "v1"
         , registrations := [{ rtype := "plugin", pluginId := "p", initDeps := [] }] }] =
      Except.ok [{ rtype := "plugin", pluginId := "p", initDeps := [] }] :=
  ⟨(c5_feature_validation
      { featureType := "bogus", version := "v1", registrations := [] } [("e", 0)]).1
      (by decide),
   (c5_feature_validation
      { featureType := "@backstage/BackendFeature", version := "v2", registrations := [] }
      [("e", 0)]).2.1 rfl (by decide),
   (c5_feature_validation
      { featureType := "@backstage/BackendFeature", version := "v1"
      , registrations := [{ rtype := "plugin", pluginId := "p", initDeps := [] }] }
      [("e", 0)]).2.2 rfl rfl⟩

/-- C6: the process-wide teardown hook attempts `stop()` on every
backend in the cleanup list; a failing stop is logged and never
propagated, so the backends before and after a failing one are still
processed, and the cleanup list is emptied afterwards. -/
theorem c6_teardown_stops_all (pre post : List BackendE) (b : BackendE) (e : String)
    (h : b.stopResult = Except.error e) :
    (afterAllTeardown (pre ++ b :: post)).1 =
      runTeardownPass pre ++
        some ("Failed to stop backend after tests, " ++ e) :: runTeardownPass post ∧
    (afterAllTeardown (pre ++ b :: post)).2 = [] ∧
    ∀ bs : List BackendE, (afterAllTeardown bs).1.length = bs.length := by
  refine ⟨?_, rfl, fun bs => runTeardownPass_length bs⟩
  simp [afterAllTeardown, runTeardownPass_append, runTeardownPass, stopBackendLogged, h]

/-- Witness for C6 at a concrete input: a failing backend between two
succeeding ones. -/
theorem c6_teardown_stops_all_witness :
    (afterAllTeardown [⟨Except.ok ()⟩, ⟨Except.error "boom"⟩, ⟨Except.ok ()⟩]).1 =
      runTeardownPass [⟨Except.ok ()⟩] ++
        some ("Failed to stop backend after tests, " ++ "boom") ::
          runTeardownPass [⟨Except.ok ()⟩] ∧
    (afterAllTeardown [⟨Except.ok ()⟩, ⟨Except.error "boom"⟩, ⟨Except.ok ()⟩]).2 = [] ∧
    ∀ bs : List BackendE, (afterAllTeardown bs).1.length = bs.length :=
  c6_teardown_stops_all [⟨Except.ok ()⟩] [⟨Except.ok ()⟩] ⟨Except.error "boom"⟩ "boom" rfl

/-- C7: the `server` accessor of the returned `TestBackend` throws when
the underlying HTTP server was never created, and returns the server
when it exists. -/
theorem c7_server_accessor :
    serverAccessor none = Except.error "TestBackend server is not available" ∧
    ∀ s : ExtendedHttpServerE, serverAccessor (some s) = Except.ok s := by
  exact ⟨rfl, fun s => rfl⟩

/-- C8: with the `extensionPoints` option absent,
`createExtensionPointTestModules` returns the empty list before
inspecting any feature, so a feature set that the validation pass would
reject is not rejected in that case. -/
theorem c8_no_tuples_short_circuit (features : List BackendFeature) (e : String)
    (ts : List (String × Nat)) (h : normalizeFeatures features = Except.error e) :
    createExtensionPointTestModules (α := Nat) features none = Except.ok [] ∧
    createExtensionPointTestModules features (some ts) = Except.error e := by
  exact ⟨rfl, by simp [createExtensionPointTestModules, h]⟩

/-- Witness for C8 at a concrete input: an invalid feature passes when
no extension-point tuples are supplied and fails when they are. -/
theorem c8_no_tuples_short_circuit_witness :
    createExtensionPointTestModules (α := Nat)
        [{ featureType := "bogus", version := "v1", registrations := [] }] none =
      Except.ok [] ∧
    createExtensionPointTestModules
        [{ featureType := "bogus", version := "v1", registrations := [] }]
        (some [("e", (0 : Nat))]) =
      Except.error ("Failed to add feature, invalid type " ++ sq ++ "bogus" ++ sq) :=
  c8_no_tuples_short_circuit
    [{ featureType := "bogus", version := "v1", registrations := [] }]
    ("Failed to add feature, invalid type " ++ sq ++ "bogus" ++ sq)
    [("e", 0)] rfl

/-- C10: two explicit service definitions with the same service id are
both mapped and both forwarded, in order, in the `services` array passed
to `createSpecializedBackend`; no conflict error is possible and no
deduplication happens between explicit entries. -/
theorem c10_duplicate_explicit_kept (d1 d2 : ServiceDefE Nat)
    (defaults : List (ServiceFactoryE Nat)) (rootF discF : ServiceFactoryE Nat)
    (h : (mapServiceDef d1).serviceId = (mapServiceDef d2).serviceId) :
    ∃ kept, servicesPassedToBackend [d1, d2] defaults rootF discF =
      mapServiceDef d1 :: mapServiceDef d2 :: (kept ++ [rootF, discF]) := by
  obtain ⟨kept, hk⟩ := addDefaults_prefix [mapServiceDef d1, mapServiceDef d2] defaults
  refine ⟨kept, ?_⟩
  simp only [servicesPassedToBackend, startTestBackendFactories, List.map_cons, List.map_nil]
  rw [hk]
  simp

/-- Witness for C10 at a concrete input: two explicit definitions for
service id `x`. -/
theorem c10_duplicate_explicit_kept_witness :
    ∃ kept,
      servicesPassedToBackend
          [ServiceDefE.factory ({ serviceId := "x", scope := "root", impl := some 1 }),
           ServiceDefE.factory ({ serviceId := "x", scope := "root", impl := some 2 })]
          [{ serviceId := "x", scope := "root", impl := some 9 }]
          { serviceId := "rootRouter", scope := "root", impl := none }
          { serviceId := "disc", scope := "root", impl := none } =
        mapServiceDef
            (ServiceDefE.factory ({ serviceId := "x", scope := "root", impl := some 1 })) ::
          mapServiceDef
              (ServiceDefE.factory ({ serviceId := "x", scope := "root", impl := some 2 })) ::
            (kept ++ [{ serviceId := "rootRouter", scope := "root", impl := none },
                      { serviceId := "disc", scope := "root", impl := none }]) :=
  c10_duplicate_explicit_kept
    (ServiceDefE.factory { serviceId := "x", scope := "root", impl := some 1 })
    (ServiceDefE.factory { serviceId := "x", scope := "root", impl := some 2 })
    [{ serviceId := "x", scope := "root", impl := some 9 }]
    { serviceId := "rootRouter", scope := "root", impl := none }
    { serviceId := "disc", scope := "root", impl := none }
    rfl

end TestBackendSpec
